import Mathlib

/-!
# Verification of the QMail multi-level encryption subsystem

A shallow embedding of the crypto core of the QMail repository:

* `qmail/crypto/encryption_engine.py` — the four-level cipher suite
  dispatcher (`EncryptionEngine`),
* `qmail/crypto/message_cipher.py` — the envelope codec (`MessageCipher`),
* `qmail/km_client/mock_km.py` — the simulated key source (`MockQKDClient`),
* `qmail/km_client/qkd_client.py` — the remote key source (`QKDClient`),
* `qmail/email_handler/attachment_handler.py` — the binary attachment
  adapter (`AttachmentHandler`).

Bytes are modelled as `Nat` (values below 256 in the program; none of the
properties below depend on the bound), byte strings as `List Nat`, and
Python text strings that only carry identifiers (key ids, base64 text) as
`List Nat` of character codes.  Fallible Python code returns
`Except PyErr`, where `PyErr` distinguishes the exception classes the
source can raise.  External primitives that the source calls from
libraries (AES block cipher, GCM keystream and tag, SHA-256, base64) are
parameters gathered in `CryptoPrims`, carrying exactly the functional
contracts the libraries guarantee; everything written by the repository
itself (XOR one-time pad, CBC chaining, PKCS#7 padding via
`Crypto.Util.Padding`, dispatch, key bookkeeping) is translated directly.
-/

set_option linter.unusedVariables false

/-- The exception classes that can escape the crypto core.  `encryptionError`
and `decryptionError` are the engine's own classes; `valueError` is Python's
`ValueError` (raised e.g. by `Crypto.Util.Padding.unpad`); `invalidTag` is
`cryptography.exceptions.InvalidTag` raised by AES-GCM finalization;
`exception` is a plain `Exception`; `keyError` is a dict lookup failure;
`qkdKeyRetrievalError` is `QKDKeyRetrievalError` from `qkd_client.py`. -/
inductive PyErr where
  | encryptionError (msg : String)
  | decryptionError (msg : String)
  | valueError (msg : String)
  | invalidTag
  | exception (msg : String)
  | keyError (msg : String)
  | qkdKeyRetrievalError (msg : String)
  | unicodeDecodeError
deriving DecidableEq, Repr

/-- Character codes of a string literal (used for Python str constants). -/
def strCodes (s : String) : List Nat :=
  s.data.map Char.toNat

/-- Byte-wise XOR of two byte strings, `bytes(p ^ k for p, k in zip(a, b))`:
truncates to the shorter input, exactly like Python's `zip`. -/
def xorBytes (a b : List Nat) : List Nat :=
  List.zipWith Nat.xor a b

/-- Flip bit `i` (little-endian within bytes) of a byte string. -/
def flipBit (l : List Nat) (i : Nat) : List Nat :=
  l.set (i / 8) (Nat.xor (l.getD (i / 8) 0) (2 ^ (i % 8)))

/-- Fuel-indexed 16-byte chunking; the fuel only bounds the recursion depth
and any fuel of at least the list length gives the same result. -/
def chunks16Aux : Nat → List Nat → List (List Nat)
  | _, [] => []
  | 0, _ :: _ => []
  | f + 1, a :: l => (a :: l).take 16 :: chunks16Aux f ((a :: l).drop 16)

/-- Split a byte string into 16-byte blocks (the AES block size used
throughout `encryption_engine.py`; the final block may be short when the
input length is not a multiple of 16). -/
def chunks16 (l : List Nat) : List (List Nat) :=
  chunks16Aux l.length l

/-- PKCS#7 padding, `Crypto.Util.Padding.pad(data, 16)` with the default
`pkcs7` style: append `p` copies of the byte `p` where
`p = 16 - len(data) % 16`. -/
def pkcs7pad (data : List Nat) (n : Nat) : List Nat :=
  data ++ List.replicate (n - data.length % n) (n - data.length % n)

/-- PKCS#7 unpadding, `Crypto.Util.Padding.unpad(data, 16)`: validates the
trailing padding and raises `ValueError` when it is malformed. -/
def pkcs7unpad (data : List Nat) (n : Nat) : Except PyErr (List Nat) :=
  if data.length = 0 then
    .error (.valueError "Zero-length input cannot be unpadded")
  else if data.length % n ≠ 0 then
    .error (.valueError "Input data is not padded")
  else
    match data.getLast? with
    | none => .error (.valueError "Zero-length input cannot be unpadded")
    | some p =>
      if 1 ≤ p ∧ p ≤ min n data.length ∧
          data.drop (data.length - p) = List.replicate p p then
        .ok (data.take (data.length - p))
      else
        .error (.valueError "Padding is incorrect.")

/-- The external cryptographic primitives called by `encryption_engine.py`,
with the functional contracts the libraries guarantee:

* `sha256` — `hashlib.sha256(...).digest()`;
* `aesEncB`/`aesDecB` — the AES block transformation applied to one block
  (key, block ↦ block), length-preserving and invertible on 16-byte blocks;
* `gcmStream` — the GCM counter-mode keystream for a key/nonce pair,
  producing the requested number of bytes;
* `gcmTag` — the GCM authentication tag over the ciphertext for a
  key/nonce pair; the library finalizes a 16-byte (128-bit) tag, which is
  what `encryptor.tag` returns and what decryption compares against;
* `b64e`/`b64d` — `base64.b64encode`/`b64decode`, a lossless transport
  codec from byte strings to character-code strings. -/
structure CryptoPrims where
  sha256 : List Nat → List Nat
  aesEncB : List Nat → List Nat → List Nat
  aesDecB : List Nat → List Nat → List Nat
  gcmStream : List Nat → List Nat → Nat → List Nat
  gcmTag : List Nat → List Nat → List Nat → List Nat
  b64e : List Nat → List Nat
  b64d : List Nat → List Nat
  aesEncB_length : ∀ k b, (aesEncB k b).length = b.length
  aesDecB_encB : ∀ k b, b.length = 16 → aesDecB k (aesEncB k b) = b
  gcmStream_length : ∀ k iv n, (gcmStream k iv n).length = n
  gcmTag_length : ∀ k iv ct, (gcmTag k iv ct).length = 16
  b64d_b64e : ∀ bs, b64d (b64e bs) = bs

/-- The per-scheme metadata dict built by the four `_encrypt_*` methods and
consumed by the four `_decrypt_*` methods.  Optional fields model dict keys
that may be absent. -/
structure MetadataM where
  security_level : Option Nat
  algorithm : List Nat
  iv : Option (List Nat)
  tag : Option (List Nat)
  plaintext_length : Option Nat
deriving DecidableEq, Repr

/-- CBC encryption over a list of plaintext blocks with running previous
ciphertext block (`modes.CBC`): `c_i = E_k(p_i XOR c_(i-1))`. -/
def cbcEncBlocks (P : CryptoPrims) (k : List Nat) :
    List Nat → List (List Nat) → List (List Nat)
  | _, [] => []
  | prev, b :: bs =>
    P.aesEncB k (xorBytes b prev) :: cbcEncBlocks P k (P.aesEncB k (xorBytes b prev)) bs

/-- CBC decryption over a list of ciphertext blocks:
`p_i = D_k(c_i) XOR c_(i-1)`. -/
def cbcDecBlocks (P : CryptoPrims) (k : List Nat) :
    List Nat → List (List Nat) → List (List Nat)
  | _, [] => []
  | prev, c :: cs => xorBytes (P.aesDecB k c) prev :: cbcDecBlocks P k c cs

/-- Full CBC encryption of a (padded) byte string. -/
def cbcEncrypt (P : CryptoPrims) (k iv pt : List Nat) : List Nat :=
  (cbcEncBlocks P k iv (chunks16 pt)).flatten

/-- Full CBC decryption of a byte string. -/
def cbcDecrypt (P : CryptoPrims) (k iv ct : List Nat) : List Nat :=
  (cbcDecBlocks P k iv (chunks16 ct)).flatten

/-- Embedding of `EncryptionEngine._encrypt_otp`: XOR the plaintext with the first
`len(plaintext)` key bytes; requires `len(key) >= len(plaintext)`. -/
def encryptOtp (pt key : List Nat) : Except PyErr (List Nat × MetadataM) :=
  if key.length < pt.length then
    .error (.encryptionError "OTP requires key length >= plaintext length")
  else
    .ok (xorBytes pt (key.take pt.length),
      { security_level := some 1, algorithm := strCodes "OTP",
        iv := none, tag := none, plaintext_length := some pt.length })

/-- Embedding of `EncryptionEngine._decrypt_otp`: XOR the ciphertext with the first
`plaintext_length` key bytes; `plaintext_length` defaults to
`len(ciphertext)` when absent from the metadata. -/
def decryptOtp (ct key : List Nat) (md : MetadataM) : Except PyErr (List Nat) :=
  if key.length < md.plaintext_length.getD ct.length then
    .error (.decryptionError "Key too short for OTP decryption")
  else
    .ok (xorBytes ct (key.take (md.plaintext_length.getD ct.length)))

/-- The AES key derivation shared by levels 2 and 3:
`hashlib.sha256(quantum_key).digest()[:32]`. -/
def qaesKey (P : CryptoPrims) (quantumKey : List Nat) : List Nat :=
  (P.sha256 quantumKey).take 32

/-- The key schedule of `_encrypt_classical`/`_decrypt_classical`: a key of
at least 32 bytes is truncated and used directly, a shorter one is hashed. -/
def classicalKey (P : CryptoPrims) (key : List Nat) : List Nat :=
  if key.length < 32 then (P.sha256 key).take 32 else key.take 32

/-- Embedding of `EncryptionEngine._encrypt_quantum_aes`: derive a 256-bit AES key via
SHA-256, pad with PKCS#7, encrypt with AES-256-CBC under a fresh IV (the
IV, drawn by `os.urandom(16)` in the source, is an explicit argument). -/
def encryptQuantumAes (P : CryptoPrims) (pt quantumKey iv : List Nat) :
    List Nat × MetadataM :=
  (cbcEncrypt P (qaesKey P quantumKey) iv (pkcs7pad pt 16),
   { security_level := some 2, algorithm := strCodes "AES-256-CBC",
     iv := some (P.b64e iv), tag := none, plaintext_length := none })

/-- Embedding of `EncryptionEngine._decrypt_quantum_aes`: derive the AES key, CBC-decrypt
and strip the PKCS#7 padding.  A ciphertext that is not block-aligned makes
the CBC decryptor's `finalize` raise `ValueError`; a malformed padding makes
`unpad` raise `ValueError` — neither is converted to `DecryptionError`. -/
def decryptQuantumAes (P : CryptoPrims) (ct quantumKey : List Nat)
    (md : MetadataM) : Except PyErr (List Nat) :=
  match md.iv with
  | none => .error (.keyError "iv")
  | some ivb =>
    if ct.length % 16 = 0 then
      pkcs7unpad (cbcDecrypt P (qaesKey P quantumKey) (P.b64d ivb) ct) 16
    else
      .error (.valueError "The length of the provided data is not a multiple of the block length.")

/-- Embedding of `EncryptionEngine._encrypt_pqc`: derive the key via SHA-256 and encrypt
with AES-GCM (counter-mode keystream plus authentication tag). -/
def encryptPqc (P : CryptoPrims) (pt key iv : List Nat) : List Nat × MetadataM :=
  (xorBytes pt (P.gcmStream (qaesKey P key) iv pt.length),
   { security_level := some 3, algorithm := strCodes "PQC-AES-GCM",
     iv := some (P.b64e iv),
     tag := some (P.b64e (P.gcmTag (qaesKey P key) iv
       (xorBytes pt (P.gcmStream (qaesKey P key) iv pt.length)))),
     plaintext_length := none })

/-- Embedding of `EncryptionEngine._decrypt_pqc`.  The GCM mode constructor
validates its arguments before any cryptography happens: an empty
initialization vector raises `ValueError` (newer library versions bound the
IV to 8..128 bytes; the 16-byte IVs this engine produces satisfy every
version), and a supplied tag shorter than the default `min_tag_length` of
16 bytes raises `ValueError`.  Only then does decryption run: the tag is
recomputed over the ciphertext, `finalize` raises `InvalidTag` on mismatch
with no plaintext returned, and on match the keystream is XORed back. -/
def decryptPqc (P : CryptoPrims) (ct key : List Nat) (md : MetadataM) :
    Except PyErr (List Nat) :=
  match md.iv with
  | none => .error (.keyError "iv")
  | some ivb =>
    match md.tag with
    | none => .error (.keyError "tag")
    | some tagb =>
      if (P.b64d ivb).length = 0 then
        .error (.valueError "initialization_vector must be at least 1 byte")
      else if (P.b64d tagb).length < 16 then
        .error (.valueError "Authentication tag must be 16 bytes or longer")
      else if P.gcmTag (qaesKey P key) (P.b64d ivb) ct = P.b64d tagb then
        .ok (xorBytes ct (P.gcmStream (qaesKey P key) (P.b64d ivb) ct.length))
      else
        .error .invalidTag

/-- Embedding of `EncryptionEngine._encrypt_classical`: AES-256-CBC with the classical
key schedule. -/
def encryptClassical (P : CryptoPrims) (pt key iv : List Nat) :
    List Nat × MetadataM :=
  (cbcEncrypt P (classicalKey P key) iv (pkcs7pad pt 16),
   { security_level := some 4, algorithm := strCodes "AES-256-CBC",
     iv := some (P.b64e iv), tag := none, plaintext_length := none })

/-- Embedding of `EncryptionEngine._decrypt_classical`: CBC-decrypt with the classical
key schedule and strip the PKCS#7 padding (`unpad` raises `ValueError` on
malformed padding). -/
def decryptClassical (P : CryptoPrims) (ct key : List Nat) (md : MetadataM) :
    Except PyErr (List Nat) :=
  match md.iv with
  | none => .error (.keyError "iv")
  | some ivb =>
    if ct.length % 16 = 0 then
      pkcs7unpad (cbcDecrypt P (classicalKey P key) (P.b64d ivb) ct) 16
    else
      .error (.valueError "Data must be padded to 16 byte boundary in CBC mode")

/-- Embedding of `EncryptionEngine.encrypt`: dispatch on the requested security level
(1 = OTP, 2 = quantum AES, 3 = post-quantum placeholder, 4 = classical). -/
def engineEncrypt (P : CryptoPrims) (pt key iv : List Nat) (level : Nat) :
    Except PyErr (List Nat × MetadataM) :=
  if level = 1 then encryptOtp pt key
  else if level = 2 then .ok (encryptQuantumAes P pt key iv)
  else if level = 3 then .ok (encryptPqc P pt key iv)
  else if level = 4 then .ok (encryptClassical P pt key iv)
  else .error (.encryptionError "Unknown security level")

/-- Embedding of `EncryptionEngine.decrypt`: the governing level is read from the
metadata via metadata.get with key security_level defaulting to QUANTUM_AES,
defaulting to level 2 when the key is absent; an out-of-range level makes
the `SecurityLevel(...)` conversion raise `ValueError`. -/
def engineDecrypt (P : CryptoPrims) (ct key : List Nat) (md : MetadataM) :
    Except PyErr (List Nat) :=
  if md.security_level.getD 2 = 1 then decryptOtp ct key md
  else if md.security_level.getD 2 = 2 then decryptQuantumAes P ct key md
  else if md.security_level.getD 2 = 3 then decryptPqc P ct key md
  else if md.security_level.getD 2 = 4 then decryptClassical P ct key md
  else .error (.valueError "is not a valid SecurityLevel")

/-- Embedding of `QKDKey` (`qkd_client.py`): one piece of key material with an id, the
raw bytes, and the bit length (`key_size`).  Key ids are character-code
strings. -/
structure QKDKeyM where
  key_id : List Nat
  key : List Nat
  key_size : Nat
deriving DecidableEq, Repr

/-- Fuel-indexed big-endian decimal digits; any fuel of at least `n` gives
the same result. -/
def natDigitsAux : Nat → Nat → List Nat
  | 0, n => [n]
  | f + 1, n => if n < 10 then [n] else natDigitsAux f (n / 10) ++ [n % 10]

/-- Big-endian decimal digits of a natural number (`natDigits 0 = [0]`). -/
def natDigits (n : Nat) : List Nat :=
  natDigitsAux n n

/-- Character codes of the decimal representation of a natural number. -/
def digitCodes (n : Nat) : List Nat :=
  (natDigits n).map (fun d => 48 + d)

/-- Python's 8-wide zero-padded decimal formatting, as used by the mock
key-id format string: the decimal representation left-padded with zeros to
at least eight characters. -/
def pad8 (n : Nat) : List Nat :=
  List.replicate (8 - (digitCodes n).length) 48 ++ digitCodes n

/-- The mock key id built by `MockQKDClient.get_key`: the literal prefix
MOCK-KEY-, the 8-wide zero-padded counter, a dash (code 45), and the
strftime timestamp (14 digits, year down to seconds) supplied as a code
string. -/
def mkKeyId (counter : Nat) (ts : List Nat) : List Nat :=
  strCodes "MOCK-KEY-" ++ pad8 counter ++ 45 :: ts

/-- The mutable state of `MockQKDClient`: the `key_store` dict
(id ↦ key bytes) and the `keys_generated` counter. -/
structure MockState where
  keyStore : List Nat → Option (List Nat)
  keysGenerated : Nat

/-- The freshly initialized mock client before any key was generated (no
persisted file found, so the store is empty and the counter is zero). -/
def mockInit : MockState :=
  { keyStore := fun _ => none, keysGenerated := 0 }

/-- One iteration of the generation loop in `MockQKDClient.get_key`: draw
`key_size // 8` random bytes (`secrets.token_bytes`, modelled by the
entropy oracle `ent` indexed by the counter value), bump `keys_generated`,
build the id, and store the key.  `ts` supplies the strftime timestamp for
a given counter value. -/
def mockGen1 (ent : Nat → Nat → Nat) (ts : Nat → List Nat) (keySize : Nat)
    (st : MockState) : QKDKeyM × MockState :=
  let c := st.keysGenerated + 1
  let kb := (List.range (keySize / 8)).map (ent c)
  let kid := mkKeyId c (ts c)
  ({ key_id := kid, key := kb, key_size := keySize },
   { keyStore := fun j => if j = kid then some kb else st.keyStore j,
     keysGenerated := c })

/-- Embedding of `MockQKDClient.get_key`: generate `count` keys of `keySize` bits. -/
def mockGetKey (ent : Nat → Nat → Nat) (ts : Nat → List Nat)
    (keySize : Nat) : Nat → MockState → List QKDKeyM × MockState
  | 0, st => ([], st)
  | count + 1, st =>
    let (k, st1) := mockGen1 ent ts keySize st
    let (ks, st2) := mockGetKey ent ts keySize count st1
    (k :: ks, st2)

/-- Embedding of `MockQKDClient.get_key_by_id`: look the id up in the store and rebuild
a `QKDKey` whose `key_size` is `len(key_bytes) * 8`; `None` if absent. -/
def mockGetKeyById (kid : List Nat) (st : MockState) : Option QKDKeyM :=
  match st.keyStore kid with
  | some kb => some { key_id := kid, key := kb, key_size := kb.length * 8 }
  | none => none

/-- Embedding of `MockQKDClient.close_key`: delete the id from the store and report
`True`; report `False` (without raising) when the id is absent. -/
def mockCloseKey (kid : List Nat) (st : MockState) : Bool × MockState :=
  if (st.keyStore kid).isSome then
    (true,
     { st with keyStore := fun j => if j = kid then none else st.keyStore j })
  else
    (false, st)

/-- The `QKDKey` construction in `QKDClient.get_key` / `get_key_by_id` for
one key_ID/key entry of the remote response: the material is the
base64-decoded `key` field and `key_size` is computed as
`len(base64.b64decode(key)) * 8`. -/
def remoteParseKey (P : CryptoPrims) (entry : List Nat × List Nat) : QKDKeyM :=
  { key_id := entry.1, key := P.b64d entry.2,
    key_size := (P.b64d entry.2).length * 8 }

/-- Parsing of the full `keys` array of a remote `enc_keys`/`dec_keys`
response in `QKDClient`. -/
def remoteParseKeys (P : CryptoPrims) (entries : List (List Nat × List Nat)) :
    List QKDKeyM :=
  entries.map (remoteParseKey P)

/-- The key-source interface as `MessageCipher` consumes it
(`self.qkd_client.get_key` / `get_key_by_id`), over an abstract client
state `σ`.  Errors cover the remote client's raised exceptions. -/
structure KSClient (σ : Type) where
  getKey : Nat → Nat → σ → Except PyErr (List QKDKeyM × σ)
  getKeyById : List Nat → σ → Except PyErr (Option QKDKeyM)

/-- The mock client as a `KSClient` over `MockState` (its operations never
raise). -/
def mockClient (ent : Nat → Nat → Nat) (ts : Nat → List Nat) :
    KSClient MockState where
  getKey := fun keySize count st => .ok (mockGetKey ent ts keySize count st)
  getKeyById := fun kid st => .ok (mockGetKeyById kid st)

/-- The encrypted package assembled by `MessageCipher.encrypt_message`:
base64 ciphertext, key id, the level's ordinal, metadata, and the optional
recipient hint. -/
structure EnvelopeM where
  ciphertext : List Nat
  key_id : List Nat
  security_level : Nat
  metadata : MetadataM
  recipient_id : Option (List Nat)
deriving DecidableEq, Repr

/-- The key size requested by `MessageCipher.encrypt_message`:
`max(len(plaintext) * 8, 256)` for OTP, otherwise 256. -/
def msgKeySize (pt : List Nat) (level : Nat) : Nat :=
  if level = 1 then max (pt.length * 8) 256 else 256

/-- The body of `MessageCipher.encrypt_message` after UTF-8 encoding:
request one key of the level-dependent size, raise a plain `Exception`
("Failed to obtain quantum key") when none is returned, encrypt, and
assemble the envelope. -/
def encryptMessageBytes (P : CryptoPrims) {σ : Type} (C : KSClient σ)
    (pt : List Nat) (level : Nat) (iv : List Nat) (st : σ) :
    Except PyErr (EnvelopeM × σ) :=
  match C.getKey (msgKeySize pt level) 1 st with
  | .error e => .error e
  | .ok (keys, st1) =>
    match keys with
    | [] => .error (.exception "Failed to obtain quantum key")
    | qk :: _ =>
      match engineEncrypt P pt qk.key iv level with
      | .error e => .error e
      | .ok (ct, md) =>
        .ok ({ ciphertext := P.b64e ct, key_id := qk.key_id,
               security_level := level, metadata := md,
               recipient_id := none }, st1)

/-- The body of `MessageCipher.decrypt_message` before UTF-8 decoding:
base64-decode the ciphertext, fetch the key by id (raising a plain
`Exception` "Failed to retrieve quantum key" when absent) and run the
engine's metadata-directed decryption. -/
def decryptMessageBytes (P : CryptoPrims) {σ : Type} (C : KSClient σ)
    (env : EnvelopeM) (st : σ) : Except PyErr (List Nat) :=
  match C.getKeyById env.key_id st with
  | .error e => .error e
  | .ok none => .error (.exception "Failed to retrieve quantum key")
  | .ok (some qk) => engineDecrypt P (P.b64d env.ciphertext) qk.key env.metadata

/-- Embedding of `MessageCipher.encrypt_message` on a text message: the
UTF-8 encoding of the message is the external codec `utf8e`. -/
def encryptMessage (P : CryptoPrims) {σ : Type} (C : KSClient σ)
    (utf8e : String → List Nat) (msg : String) (level : Nat) (iv : List Nat)
    (st : σ) : Except PyErr (EnvelopeM × σ) :=
  encryptMessageBytes P C (utf8e msg) level iv st

/-- Embedding of `MessageCipher.decrypt_message` on a text message: the
UTF-8 decoding of the plaintext bytes is the external codec `utf8d`, raising
`UnicodeDecodeError` on invalid bytes. -/
def decryptMessage (P : CryptoPrims) {σ : Type} (C : KSClient σ)
    (utf8d : List Nat → Option String) (env : EnvelopeM) (st : σ) :
    Except PyErr String :=
  match decryptMessageBytes P C env st with
  | .error e => .error e
  | .ok pt =>
    match utf8d pt with
    | some s => .ok s
    | none => .error .unicodeDecodeError

/-- A file handed to `AttachmentHandler.encrypt_file` (name and raw
content; the `stat().st_size` the handler checks equals the content
length). -/
structure FileM where
  name : List Nat
  content : List Nat
deriving DecidableEq, Repr

/-- Embedding of `EncryptedAttachment` (`attachment_handler.py`). -/
structure EncAttM where
  filename : List Nat
  encrypted_content : List Nat
  original_size : Nat
  encrypted_size : Nat
  key_id : List Nat
  security_level : Nat
  metadata : MetadataM
deriving DecidableEq, Repr

/-- Embedding of `AttachmentHandler.encrypt_file`: reject a file above
`max_attachment_size` with `ValueError` before anything is read or
encrypted; otherwise base64-transcode the raw bytes to text and delegate
to `MessageCipher.encrypt_message`. -/
def encryptFileM (P : CryptoPrims) {σ : Type} (C : KSClient σ)
    (maxSize : Nat) (f : FileM) (level : Nat) (iv : List Nat) (st : σ) :
    Except PyErr (EncAttM × σ) :=
  if f.content.length > maxSize then
    .error (.valueError "File too large")
  else
    match encryptMessageBytes P C (P.b64e f.content) level iv st with
    | .error e => .error e
    | .ok (env, st1) =>
      .ok ({ filename := f.name, encrypted_content := env.ciphertext,
             original_size := f.content.length,
             encrypted_size := env.ciphertext.length,
             key_id := env.key_id, security_level := env.security_level,
             metadata := env.metadata }, st1)

/-- The loop of `AttachmentHandler.encrypt_multiple_files`: files are
encrypted in order, each with its own fresh IV (`ivs` indexed by
position); the `try/except` around each file logs and re-raises, so the
first failure aborts the loop and propagates. -/
def encMultiGo (P : CryptoPrims) {σ : Type} (C : KSClient σ) (maxSize : Nat)
    (level : Nat) (ivs : Nat → List Nat) :
    List FileM → Nat → σ → Except PyErr (List EncAttM × σ)
  | [], _, st => .ok ([], st)
  | f :: fs, i, st =>
    match encryptFileM P C maxSize f level (ivs i) st with
    | .error e => .error e
    | .ok (a, st1) =>
      match encMultiGo P C maxSize level ivs fs (i + 1) st1 with
      | .error e => .error e
      | .ok (as, st2) => .ok (a :: as, st2)

/-- Embedding of `AttachmentHandler.encrypt_multiple_files`. -/
def encryptMultipleFiles (P : CryptoPrims) {σ : Type} (C : KSClient σ)
    (maxSize : Nat) (files : List FileM) (level : Nat) (ivs : Nat → List Nat)
    (st : σ) : Except PyErr (List EncAttM × σ) :=
  encMultiGo P C maxSize level ivs files 0 st

/-- One event in the life of the simulated key source: generating a key (the
event carries the strftime timestamp observed at that moment), closing an
id, or a process restart that re-loads the persisted store
(`MockQKDClient._load_keys`). -/
inductive KMEv where
  | gen (keySize : Nat) (ts : List Nat)
  | close (id : List Nat)
  | restart

/-- The simulated key source together with its persisted file
(`instance/mock_qkd_keys.json`) and the ghost history of every id ever
issued (as counter/timestamp pairs).  `_save_keys` writes both the store
and `keys_generated`; it runs after every generation and after every
successful close. -/
structure SimState where
  st : MockState
  savedGenerated : Nat
  savedStore : List Nat → Option (List Nat)
  issued : List (Nat × List Nat)

/-- The state of a first-ever start: nothing persisted, nothing issued. -/
def simInit : SimState :=
  { st := mockInit, savedGenerated := 0, savedStore := fun _ => none,
    issued := [] }

/-- One step of the simulated key source.  `gen` runs one iteration of
`get_key` and then `_save_keys`; `close` runs `close_key` (which saves only
when the id was found); `restart` discards the in-memory state and reloads
the persisted store and counter. -/
def simStep (ent : Nat → Nat → Nat) (s : SimState) : KMEv → SimState
  | .gen keySize ts =>
    let r := mockGen1 ent (fun _ => ts) keySize s.st
    { st := r.2, savedGenerated := r.2.keysGenerated,
      savedStore := r.2.keyStore,
      issued := (r.2.keysGenerated, ts) :: s.issued }
  | .close id =>
    let r := mockCloseKey id s.st
    if r.1 then
      { s with st := r.2, savedGenerated := r.2.keysGenerated,
               savedStore := r.2.keyStore }
    else
      { s with st := r.2 }
  | .restart =>
    { s with st := { keyStore := s.savedStore,
                     keysGenerated := s.savedGenerated } }

/-- Run the simulated key source over a whole event trace. -/
def simRun (ent : Nat → Nat → Nat) (evs : List KMEv) : SimState :=
  evs.foldl (simStep ent) simInit

/-- The id strings of every key ever issued along a trace. -/
def issuedIds (s : SimState) : List (List Nat) :=
  s.issued.map (fun p => mkKeyId p.1 p.2)

/-- Whether a result is the engine's typed `DecryptionError`. -/
def isDecryptionErrorResult (r : Except PyErr (List Nat)) : Bool :=
  match r with
  | .error (.decryptionError _) => true
  | _ => false

/-- Whether a message-cipher result is the typed key-retrieval error. -/
def isKeyRetrievalResult {α : Type} (r : Except PyErr α) : Bool :=
  match r with
  | .error (.qkdKeyRetrievalError _) => true
  | _ => false

/-- A concrete instance of the external primitives, used to evaluate the
theorems below on closed inputs: the identity block cipher, an all-zero
keystream, the identity tag and transparent base64. -/
def toyPrims : CryptoPrims where
  sha256 := fun x => x
  aesEncB := fun _ b => b
  aesDecB := fun _ b => b
  gcmStream := fun _ _ n => List.replicate n 0
  gcmTag := fun _ _ ct => (ct ++ List.replicate 16 0).take 16
  b64e := fun bs => bs
  b64d := fun bs => bs
  aesEncB_length := fun _ _ => rfl
  aesDecB_encB := fun _ _ _ => rfl
  gcmStream_length := fun _ _ n => List.length_replicate n 0
  gcmTag_length := fun _ _ ct => by
    rw [List.length_take, List.length_append, List.length_replicate]
    omega
  b64d_b64e := fun _ => rfl

/-- A key source whose generation returns an empty key list and whose
retrieval finds nothing (used to evaluate the error paths of the envelope
codec on closed inputs). -/
def emptyClient : KSClient Unit where
  getKey := fun _ _ st => .ok ([], st)
  getKeyById := fun _ _ => .ok none

/-- A transparent text codec standing in for UTF-8 in closed evaluations:
character codes out, characters back in. -/
def toyUtf8e (s : String) : List Nat :=
  s.data.map Char.toNat

/-- Inverse of `toyUtf8e`. -/
def toyUtf8d (l : List Nat) : Option String :=
  some (String.mk (l.map Char.ofNat))

/-- Decode a decimal code string back to the number it renders. -/
def decCodes (l : List Nat) : Nat :=
  l.foldl (fun x c => x * 10 + (c - 48)) 0

/-- The persistence invariant of the simulated key source: the persisted
counter never exceeds the in-memory counter, and every issued id's counter
is at most the persisted counter. -/
def SimInv (s : SimState) : Prop :=
  s.savedGenerated ≤ s.st.keysGenerated ∧
    ∀ p ∈ s.issued, p.1 ≤ s.savedGenerated

theorem xorBytes_length (a b : List Nat) :
    (xorBytes a b).length = min a.length b.length := by
  simp [xorBytes]

theorem xorBytes_xorBytes (p s : List Nat) (h : p.length ≤ s.length) :
    xorBytes (xorBytes p s) s = p := by
  induction p generalizing s with
  | nil => simp [xorBytes]
  | cons a p ih =>
    cases s with
    | nil => simp at h
    | cons b s =>
      simp only [xorBytes, List.zipWith_cons_cons] at *
      exact congrArg₂ (· :: ·) (Nat.xor_cancel_right b a) (ih s (by simpa using h))

theorem chunks16Aux_eq_of_le (f1 : Nat) :
    ∀ (f2 : Nat) (l : List Nat), l.length ≤ f1 → l.length ≤ f2 →
      chunks16Aux f1 l = chunks16Aux f2 l := by
  induction f1 with
  | zero =>
    intro f2 l h1 h2
    cases l with
    | nil => cases f2 <;> rfl
    | cons a l => simp at h1
  | succ f ih =>
    intro f2 l h1 h2
    cases l with
    | nil => cases f2 <;> rfl
    | cons a l =>
      cases f2 with
      | zero => simp at h2
      | succ g =>
        rw [chunks16Aux, chunks16Aux]
        congr 1
        apply ih
        · simp only [List.length_drop, List.length_cons] at h1 ⊢
          omega
        · simp only [List.length_drop, List.length_cons] at h2 ⊢
          omega

theorem chunks16_cons (a : Nat) (l : List Nat) :
    chunks16 (a :: l) = (a :: l).take 16 :: chunks16 ((a :: l).drop 16) := by
  show chunks16Aux (a :: l).length (a :: l) = _
  have hc : (a :: l).length = l.length + 1 := rfl
  rw [hc, chunks16Aux]
  congr 1
  apply chunks16Aux_eq_of_le
  · simp only [List.length_drop, List.length_cons]
    omega
  · exact le_refl _

theorem chunks16_flatten_self (l : List Nat) : (chunks16 l).flatten = l := by
  have haux : ∀ (f : Nat) (m : List Nat), m.length ≤ f →
      (chunks16Aux f m).flatten = m := by
    intro f
    induction f with
    | zero =>
      intro m hm
      cases m with
      | nil => rfl
      | cons a m => simp at hm
    | succ f ih =>
      intro m hm
      cases m with
      | nil => rfl
      | cons a m =>
        rw [chunks16Aux, List.flatten_cons,
          ih _ (by simp only [List.length_drop, List.length_cons] at hm ⊢; omega)]
        exact List.take_append_drop 16 (a :: m)
  exact haux l.length l (le_refl _)

theorem chunks16_cons16 (b l : List Nat) (hb : b.length = 16) :
    chunks16 (b ++ l) = b :: chunks16 l := by
  cases b with
  | nil => simp at hb
  | cons x xs =>
    rw [List.cons_append, chunks16_cons, ← List.cons_append]
    congr 1
    · rw [← hb]; exact List.take_left _ _
    · congr 1; rw [← hb]; exact List.drop_left _ _

theorem chunks16_flatten (bs : List (List Nat)) (h : ∀ b ∈ bs, b.length = 16) :
    chunks16 bs.flatten = bs := by
  induction bs with
  | nil => rfl
  | cons b bs ih =>
    rw [List.flatten_cons, chunks16_cons16 b bs.flatten (h b (by simp)),
      ih (fun x hx => h x (by simp [hx]))]

theorem chunks16_length_mem (l : List Nat) (h : l.length % 16 = 0) :
    ∀ b ∈ chunks16 l, b.length = 16 := by
  have haux : ∀ (f : Nat) (m : List Nat), m.length ≤ f → m.length % 16 = 0 →
      ∀ b ∈ chunks16Aux f m, b.length = 16 := by
    intro f
    induction f with
    | zero =>
      intro m hm hmod
      cases m with
      | nil => simp [chunks16Aux]
      | cons a m => simp at hm
    | succ f ih =>
      intro m hm hmod
      cases m with
      | nil => simp [chunks16Aux]
      | cons a m =>
        rw [chunks16Aux]
        intro b hb
        rcases List.mem_cons.mp hb with h1 | h2
        · subst h1
          have hlen : (a :: m).length % 16 = 0 := hmod
          simp only [List.length_cons] at hlen
          simp [List.length_take]
          omega
        · refine ih _ ?_ ?_ b h2
          · simp only [List.length_drop, List.length_cons] at hm ⊢
            omega
          · simp only [List.length_drop, List.length_cons] at hmod ⊢
            omega
  exact haux l.length l (le_refl _) h

theorem cbcEncBlocks_length_mem (P : CryptoPrims) (k : List Nat)
    (bs : List (List Nat)) (prev : List Nat) (hbs : ∀ b ∈ bs, b.length = 16)
    (hprev : prev.length = 16) :
    ∀ c ∈ cbcEncBlocks P k prev bs, c.length = 16 := by
  induction bs generalizing prev with
  | nil => simp [cbcEncBlocks]
  | cons b bs ih =>
    intro c hc
    have hb : b.length = 16 := hbs b (by simp)
    have henc : (P.aesEncB k (xorBytes b prev)).length = 16 := by
      rw [P.aesEncB_length, xorBytes_length, hb, hprev]; simp
    rcases List.mem_cons.mp hc with h1 | h2
    · simp [h1, henc]
    · exact ih _ (fun x hx => hbs x (List.mem_cons_of_mem _ hx)) henc c h2

theorem cbcDecBlocks_cbcEncBlocks (P : CryptoPrims) (k : List Nat)
    (bs : List (List Nat)) (prev : List Nat) (hbs : ∀ b ∈ bs, b.length = 16)
    (hprev : prev.length = 16) :
    cbcDecBlocks P k prev (cbcEncBlocks P k prev bs) = bs := by
  induction bs generalizing prev with
  | nil => simp [cbcEncBlocks, cbcDecBlocks]
  | cons b bs ih =>
    have hb : b.length = 16 := hbs b (by simp)
    have hxor : (xorBytes b prev).length = 16 := by
      rw [xorBytes_length, hb, hprev]; simp
    have henc : (P.aesEncB k (xorBytes b prev)).length = 16 := by
      rw [P.aesEncB_length, hxor]
    simp only [cbcEncBlocks, cbcDecBlocks]
    rw [P.aesDecB_encB k _ hxor]
    rw [xorBytes_xorBytes b prev (by omega)]
    rw [ih _ (fun x hx => hbs x (List.mem_cons_of_mem _ hx)) henc]

theorem cbcDecrypt_cbcEncrypt (P : CryptoPrims) (k iv pt : List Nat)
    (hpt : pt.length % 16 = 0) (hiv : iv.length = 16) :
    cbcDecrypt P k iv (cbcEncrypt P k iv pt) = pt := by
  unfold cbcDecrypt cbcEncrypt
  rw [chunks16_flatten _
    (cbcEncBlocks_length_mem P k _ iv (chunks16_length_mem pt hpt) hiv)]
  rw [cbcDecBlocks_cbcEncBlocks P k _ iv (chunks16_length_mem pt hpt) hiv]
  exact chunks16_flatten_self pt

theorem cbcEncrypt_length_mod (P : CryptoPrims) (k iv pt : List Nat)
    (hpt : pt.length % 16 = 0) (hiv : iv.length = 16) :
    (cbcEncrypt P k iv pt).length % 16 = 0 := by
  unfold cbcEncrypt
  have h16 := cbcEncBlocks_length_mem P k (chunks16 pt) iv
    (chunks16_length_mem pt hpt) hiv
  generalize cbcEncBlocks P k iv (chunks16 pt) = cs at h16
  induction cs with
  | nil => simp
  | cons c cs ih =>
    simp only [List.flatten_cons, List.length_append]
    rw [h16 c (by simp)]
    have := ih (fun x hx => h16 x (by simp [hx]))
    omega

theorem pkcs7pad_length_mod (x : List Nat) : (pkcs7pad x 16).length % 16 = 0 := by
  simp only [pkcs7pad, List.length_append, List.length_replicate]
  omega

theorem pkcs7unpad_pkcs7pad (x : List Nat) :
    pkcs7unpad (pkcs7pad x 16) 16 = .ok x := by
  have hp : 1 ≤ 16 - x.length % 16 ∧ 16 - x.length % 16 ≤ 16 := by omega
  have hsub : (pkcs7pad x 16).length - (16 - x.length % 16) = x.length := by
    simp only [pkcs7pad, List.length_append, List.length_replicate]
    omega
  have hlast : (pkcs7pad x 16).getLast? = some (16 - x.length % 16) := by
    unfold pkcs7pad
    rw [List.getLast?_append_of_ne_nil x
      (by intro hnil; have := congrArg List.length hnil; simp at this; omega)]
    rw [List.getLast?_replicate]
    simp only [if_neg (by omega : ¬(16 - x.length % 16 = 0))]
  unfold pkcs7unpad
  rw [if_neg, if_neg, hlast]
  · simp only []
    rw [if_pos]
    · rw [hsub]
      unfold pkcs7pad
      rw [List.take_left]
    · refine ⟨by omega, ?_, ?_⟩
      · simp only [pkcs7pad, List.length_append, List.length_replicate]
        omega
      · rw [hsub]
        unfold pkcs7pad
        rw [List.drop_left]
  · simp [pkcs7pad_length_mod]
  · simp only [pkcs7pad, List.length_append, List.length_replicate]
    omega

theorem pkcs7unpad_error_valueError (d : List Nat) (n : Nat) (e : PyErr)
    (h : pkcs7unpad d n = .error e) : ∃ m, e = .valueError m := by
  unfold pkcs7unpad at h
  split at h
  · exact ⟨_, (Except.error.inj h).symm⟩
  · split at h
    · exact ⟨_, (Except.error.inj h).symm⟩
    · split at h
      · exact ⟨_, (Except.error.inj h).symm⟩
      · split at h
        · exact absurd h (by simp)
        · exact ⟨_, (Except.error.inj h).symm⟩

theorem natDigitsAux_eq_of_le (f1 : Nat) :
    ∀ (f2 n : Nat), n ≤ f1 → n ≤ f2 → natDigitsAux f1 n = natDigitsAux f2 n := by
  induction f1 with
  | zero =>
    intro f2 n h1 h2
    have hn : n = 0 := by omega
    subst hn
    cases f2 with
    | zero => rfl
    | succ g => simp [natDigitsAux]
  | succ f ih =>
    intro f2 n h1 h2
    cases f2 with
    | zero =>
      have hn : n = 0 := by omega
      subst hn
      simp [natDigitsAux]
    | succ g =>
      rw [natDigitsAux, natDigitsAux]
      by_cases h : n < 10
      · rw [if_pos h, if_pos h]
      · rw [if_neg h, if_neg h]
        have hdiv : n / 10 < n := Nat.div_lt_self (by omega) (by omega)
        congr 1
        apply ih
        · omega
        · omega

theorem natDigits_eq_rec (n : Nat) :
    natDigits n = if n < 10 then [n] else natDigits (n / 10) ++ [n % 10] := by
  cases n with
  | zero => simp [natDigits, natDigitsAux]
  | succ m =>
    rw [natDigits, natDigitsAux]
    by_cases h : m + 1 < 10
    · rw [if_pos h, if_pos h]
    · rw [if_neg h, if_neg h]
      have hdiv : (m + 1) / 10 < m + 1 := Nat.div_lt_self (by omega) (by omega)
      congr 1
      rw [natDigits]
      apply natDigitsAux_eq_of_le
      · omega
      · exact le_refl _

theorem natDigits_lt_ten (n : Nat) : ∀ d ∈ natDigits n, d < 10 := by
  induction n using Nat.strong_induction_on with
  | _ n ih =>
    rw [natDigits_eq_rec]
    by_cases h : n < 10
    · rw [if_pos h]
      simpa using h
    · rw [if_neg h]
      intro d hd
      rcases List.mem_append.mp hd with h1 | h2
      · exact ih (n / 10) (Nat.div_lt_self (by omega) (by omega)) d h1
      · simp only [List.mem_singleton] at h2
        omega

theorem foldl_digits_natDigits (n : Nat) : ∀ a,
    List.foldl (fun x d => x * 10 + d) a (natDigits n) =
      a * 10 ^ (natDigits n).length + n := by
  induction n using Nat.strong_induction_on with
  | _ n ih =>
    intro a
    rw [natDigits_eq_rec]
    by_cases h : n < 10
    · rw [if_pos h]
      simp [List.foldl]
    · rw [if_neg h]
      rw [List.foldl_append, ih (n / 10) (Nat.div_lt_self (by omega) (by omega))]
      simp only [List.foldl, List.length_append, List.length_cons,
        List.length_nil]
      rw [pow_succ]
      have hdm : 10 * (n / 10) + n % 10 = n := Nat.div_add_mod n 10
      ring_nf
      omega

theorem decCodes_pad8 (n : Nat) : decCodes (pad8 n) = n := by
  unfold decCodes pad8
  rw [List.foldl_append]
  have hz : ∀ k, List.foldl (fun x c => x * 10 + (c - 48)) 0
      (List.replicate k 48) = 0 := by
    intro k
    induction k with
    | zero => simp
    | succ k ih => simpa [List.replicate_succ] using ih
  rw [hz]
  unfold digitCodes
  rw [List.foldl_map]
  have : (fun (x d : Nat) => x * 10 + (48 + d - 48)) =
      fun (x d : Nat) => x * 10 + d := by
    funext x d
    omega
  rw [this, foldl_digits_natDigits]
  simp

theorem pad8_codes (n : Nat) : ∀ x ∈ pad8 n, 48 ≤ x ∧ x ≤ 57 := by
  intro x hx
  unfold pad8 at hx
  rcases List.mem_append.mp hx with h1 | h2
  · have := List.eq_of_mem_replicate h1
    omega
  · unfold digitCodes at h2
    rcases List.mem_map.mp h2 with ⟨d, hd, hdx⟩
    have := natDigits_lt_ten n d hd
    omega

theorem sep_append_inj (a : List Nat) :
    ∀ (b t u : List Nat), (∀ x ∈ a, x ≠ 45) → (∀ x ∈ b, x ≠ 45) →
      a ++ 45 :: t = b ++ 45 :: u → a = b := by
  induction a with
  | nil =>
    intro b t u _ hb h
    cases b with
    | nil => rfl
    | cons y ys =>
      simp only [List.nil_append, List.cons_append, List.cons.injEq] at h
      exact absurd h.1.symm (hb y (by simp))
  | cons x xs ih =>
    intro b t u ha hb h
    cases b with
    | nil =>
      simp only [List.nil_append, List.cons_append, List.cons.injEq] at h
      exact absurd h.1 (ha x (by simp))
    | cons y ys =>
      simp only [List.cons_append, List.cons.injEq] at h
      rw [h.1]
      rw [ih ys t u (fun z hz => ha z (List.mem_cons_of_mem _ hz))
        (fun z hz => hb z (List.mem_cons_of_mem _ hz)) h.2]

theorem mkKeyId_counter_inj (c1 c2 : Nat) (t1 t2 : List Nat)
    (h : mkKeyId c1 t1 = mkKeyId c2 t2) : c1 = c2 := by
  unfold mkKeyId at h
  rw [List.append_assoc, List.append_assoc] at h
  have h2 := (List.append_right_inj (strCodes "MOCK-KEY-")).mp h
  have h3 := sep_append_inj (pad8 c1) (pad8 c2) t1 t2
    (fun x hx => by have := pad8_codes c1 x hx; omega)
    (fun x hx => by have := pad8_codes c2 x hx; omega) h2
  have := decCodes_pad8 c1
  rw [h3, decCodes_pad8] at this
  omega

theorem simStep_inv (ent : Nat → Nat → Nat) (s : SimState) (e : KMEv)
    (h : SimInv s) : SimInv (simStep ent s e) := by
  obtain ⟨h1, h2⟩ := h
  cases e with
  | gen keySize ts =>
    refine ⟨le_refl _, ?_⟩
    intro p hp
    simp only [simStep, mockGen1] at hp ⊢
    rcases List.mem_cons.mp hp with hh | hh
    · rw [hh]
    · have := h2 p hh
      omega
  | close id =>
    simp only [simStep]
    split
    · refine ⟨le_refl _, ?_⟩
      intro p hp
      have hcnt : (mockCloseKey id s.st).2.keysGenerated = s.st.keysGenerated := by
        unfold mockCloseKey
        split <;> rfl
      rw [hcnt]
      exact le_trans (h2 p hp) h1
    · have hst : (mockCloseKey id s.st).2.keysGenerated = s.st.keysGenerated := by
        unfold mockCloseKey
        split <;> rfl
      exact ⟨by simpa [hst] using h1, h2⟩
  | restart =>
    exact ⟨le_refl _, h2⟩

theorem simRun_go_inv (ent : Nat → Nat → Nat) (evs : List KMEv) (s : SimState)
    (h : SimInv s) : SimInv (List.foldl (simStep ent) s evs) := by
  induction evs generalizing s with
  | nil => exact h
  | cons e evs ih => exact ih _ (simStep_inv ent s e h)

theorem simRun_inv (ent : Nat → Nat → Nat) (evs : List KMEv) :
    SimInv (simRun ent evs) := by
  unfold simRun
  exact simRun_go_inv ent evs simInit ⟨le_refl _, by simp [simInit]⟩

theorem flipBit_ne (l : List Nat) (i : Nat) (h : i < l.length * 8) :
    flipBit l i ≠ l := by
  have hq : i / 8 < l.length := by omega
  intro he
  have h1 : (flipBit l i).getD (i / 8) 0 = l.getD (i / 8) 0 := by rw [he]
  unfold flipBit at h1
  rw [List.getD_eq_getElem?_getD, List.getElem?_set_self (by omega)] at h1
  simp only [Option.getD_some] at h1
  rw [List.getD_eq_getElem?_getD] at h1
  have h2 : l.getD (i / 8) 0 ^^^ 2 ^ (i % 8) = l.getD (i / 8) 0 := by
    simpa [List.getD_eq_getElem?_getD] using h1
  have h3 := congrArg (fun x => l.getD (i / 8) 0 ^^^ x) h2
  simp only [← Nat.xor_assoc, Nat.xor_self, Nat.zero_xor] at h3
  have h4 : (0:Nat) < 2 ^ (i % 8) := Nat.pos_pow_of_pos _ (by omega)
  omega

theorem toyCodec_inverse (s : String) : toyUtf8d (toyUtf8e s) = some s := by
  unfold toyUtf8d toyUtf8e
  congr 1
  cases s with
  | mk data =>
    simp only [List.map_map]
    congr 1
    have : (Char.ofNat ∘ Char.toNat) = id := by
      funext c
      exact Char.ofNat_toNat c
    rw [this, List.map_id]

theorem mockGetKey_mem_spec (ent : Nat → Nat → Nat) (ts : Nat → List Nat)
    (keySize count : Nat) (st : MockState) :
    ∀ r ∈ (mockGetKey ent ts keySize count st).1,
      r.key.length = keySize / 8 ∧ r.key_size = keySize := by
  induction count generalizing st with
  | zero => simp [mockGetKey]
  | succ n ih =>
    intro r hr
    simp only [mockGetKey] at hr
    rcases List.mem_cons.mp hr with h1 | h2
    · subst h1
      simp [mockGen1]
    · exact ih _ r h2

theorem mockGetKey_one (ent : Nat → Nat → Nat) (ts : Nat → List Nat)
    (keySize : Nat) (st : MockState) :
    mockGetKey ent ts keySize 1 st =
      ([(mockGen1 ent ts keySize st).1], (mockGen1 ent ts keySize st).2) := by
  simp [mockGetKey]

theorem mockGen1_key_length (ent : Nat → Nat → Nat) (ts : Nat → List Nat)
    (keySize : Nat) (st : MockState) :
    (mockGen1 ent ts keySize st).1.key.length = keySize / 8 := by
  simp [mockGen1]

theorem mockGen1_store_self (ent : Nat → Nat → Nat) (ts : Nat → List Nat)
    (keySize : Nat) (st : MockState) :
    (mockGen1 ent ts keySize st).2.keyStore (mockGen1 ent ts keySize st).1.key_id =
      some (mockGen1 ent ts keySize st).1.key := by
  simp [mockGen1]

theorem otp_xor_roundtrip (pt key : List Nat) (h : pt.length ≤ key.length) :
    xorBytes (xorBytes pt (key.take pt.length)) (key.take pt.length) = pt := by
  apply xorBytes_xorBytes
  rw [List.length_take]
  omega

theorem engineDecrypt_engineEncrypt (P : CryptoPrims) (pt key iv : List Nat)
    (level : Nat) (hiv : iv.length = 16)
    (hotp : level = 1 → pt.length ≤ key.length) (ct : List Nat) (md : MetadataM)
    (h : engineEncrypt P pt key iv level = .ok (ct, md)) :
    engineDecrypt P ct key md = .ok pt := by
  by_cases h1 : level = 1
  · subst h1
    have hk := hotp rfl
    rw [engineEncrypt, if_pos rfl, encryptOtp, if_neg (by omega)] at h
    injection Except.ok.inj h with hct hmd
    subst hct
    subst hmd
    simp only [engineDecrypt, decryptOtp, Option.getD_some]
    rw [if_pos trivial, if_neg (by omega), otp_xor_roundtrip pt key hk]
  · by_cases h2 : level = 2
    · subst h2
      rw [engineEncrypt, if_neg (by omega), if_pos rfl, encryptQuantumAes] at h
      injection Except.ok.inj h with hct hmd
      subst hct
      subst hmd
      simp only [engineDecrypt, Option.getD_some]
      rw [if_pos trivial, decryptQuantumAes]
      simp only []
      rw [if_pos (cbcEncrypt_length_mod P _ iv _ (pkcs7pad_length_mod pt) hiv)]
      rw [P.b64d_b64e, cbcDecrypt_cbcEncrypt P _ iv _ (pkcs7pad_length_mod pt) hiv]
      exact pkcs7unpad_pkcs7pad pt
    · by_cases h3 : level = 3
      · subst h3
        rw [engineEncrypt, if_neg (by omega), if_neg (by omega), if_pos rfl,
          encryptPqc] at h
        injection Except.ok.inj h with hct hmd
        subst hct
        subst hmd
        simp only [engineDecrypt, Option.getD_some]
        norm_num
        rw [decryptPqc]
        simp only []
        rw [P.b64d_b64e, P.b64d_b64e, if_neg (by omega),
          if_neg (by rw [P.gcmTag_length]; omega), if_pos rfl]
        have hlen : (xorBytes pt (P.gcmStream (qaesKey P key) iv pt.length)).length
            = pt.length := by
          rw [xorBytes_length, P.gcmStream_length]
          omega
        rw [hlen, xorBytes_xorBytes pt _ (by rw [P.gcmStream_length])]
      · by_cases h4 : level = 4
        · subst h4
          rw [engineEncrypt, if_neg (by omega), if_neg (by omega),
            if_neg (by omega), if_pos rfl, encryptClassical] at h
          injection Except.ok.inj h with hct hmd
          subst hct
          subst hmd
          simp only [engineDecrypt, Option.getD_some]
          rw [if_pos trivial, decryptClassical]
          simp only []
          rw [if_pos (cbcEncrypt_length_mod P _ iv _ (pkcs7pad_length_mod pt) hiv)]
          rw [P.b64d_b64e, cbcDecrypt_cbcEncrypt P _ iv _ (pkcs7pad_length_mod pt) hiv]
          exact pkcs7unpad_pkcs7pad pt
        · rw [engineEncrypt, if_neg h1, if_neg h2, if_neg h3, if_neg h4] at h
          exact absurd h (by simp)


theorem encryptMessageBytes_mock_level2_eq (P : CryptoPrims)
    (ent : Nat → Nat → Nat) (ts : Nat → List Nat) (pt iv : List Nat)
    (mst : MockState) :
    encryptMessageBytes P (mockClient ent ts) pt 2 iv mst =
      .ok ({ ciphertext :=
               P.b64e (encryptQuantumAes P pt (mockGen1 ent ts 256 mst).1.key iv).1,
             key_id := (mockGen1 ent ts 256 mst).1.key_id,
             security_level := 2,
             metadata := (encryptQuantumAes P pt (mockGen1 ent ts 256 mst).1.key iv).2,
             recipient_id := none }, (mockGen1 ent ts 256 mst).2) := by
  rw [encryptMessageBytes]
  simp only [mockClient]
  have hk : msgKeySize pt 2 = 256 := by simp [msgKeySize]
  rw [hk, mockGetKey_one]
  simp only []
  rw [engineEncrypt]
  norm_num

theorem encryptFileM_mock_level2_ok (P : CryptoPrims) (ent : Nat → Nat → Nat)
    (ts : Nat → List Nat) (maxSize : Nat) (f : FileM) (iv : List Nat)
    (mst : MockState) (h : f.content.length ≤ maxSize) :
    ∃ a mst2, encryptFileM P (mockClient ent ts) maxSize f 2 iv mst =
      .ok (a, mst2) := by
  rw [encryptFileM, if_neg (by omega),
    encryptMessageBytes_mock_level2_eq P ent ts (P.b64e f.content) iv mst]
  exact ⟨_, _, rfl⟩

theorem encMultiGo_mock_aborts (P : CryptoPrims) (ent : Nat → Nat → Nat)
    (ts : Nat → List Nat) (maxSize : Nat) (ivs : Nat → List Nat)
    (xs : List FileM) (g : FileM) (ys : List FileM) (i : Nat) (mst : MockState)
    (hxs : ∀ x ∈ xs, x.content.length ≤ maxSize)
    (hg : g.content.length > maxSize) :
    encMultiGo P (mockClient ent ts) maxSize 2 ivs (xs ++ g :: ys) i mst =
      .error (.valueError "File too large") := by
  induction xs generalizing i mst with
  | nil =>
    rw [List.nil_append, encMultiGo, encryptFileM, if_pos hg]
  | cons x xs ih =>
    rw [List.cons_append, encMultiGo]
    obtain ⟨a, mst2, heq⟩ := encryptFileM_mock_level2_ok P ent ts maxSize x
      (ivs i) mst (hxs x (by simp))
    rw [heq]
    simp only []
    rw [ih _ _ (fun z hz => hxs z (List.mem_cons_of_mem _ hz))]

theorem msgKeySize_otp_ge (pt : List Nat) : pt.length ≤ msgKeySize pt 1 / 8 := by
  have h : msgKeySize pt 1 = max (pt.length * 8) 256 := by
    rw [msgKeySize, if_pos rfl]
  rw [h]
  rcases Nat.le_total (pt.length * 8) 256 with hle | hle
  · rw [Nat.max_eq_right hle]
    omega
  · rw [Nat.max_eq_left hle]
    omega

theorem engineEncrypt_ok (P : CryptoPrims) (pt key iv : List Nat) (level : Nat)
    (hlevel : level = 1 ∨ level = 2 ∨ level = 3 ∨ level = 4)
    (hotp : level = 1 → pt.length ≤ key.length) :
    ∃ ct md, engineEncrypt P pt key iv level = .ok (ct, md) := by
  rcases hlevel with h | h | h | h
  · subst h
    rw [engineEncrypt, if_pos rfl, encryptOtp, if_neg (by have := hotp rfl; omega)]
    exact ⟨_, _, rfl⟩
  · subst h
    rw [engineEncrypt, if_neg (by omega), if_pos rfl]
    exact ⟨_, _, rfl⟩
  · subst h
    rw [engineEncrypt, if_neg (by omega), if_neg (by omega), if_pos rfl]
    exact ⟨_, _, rfl⟩
  · subst h
    rw [engineEncrypt, if_neg (by omega), if_neg (by omega), if_neg (by omega),
      if_pos rfl]
    exact ⟨_, _, rfl⟩

/-- C1: for every security level in 1..4 (OneTimePad, KeyDerivedAES,
PostQuantumPlaceholder, Classical) and every text message, encrypting with
`MessageCipher.encrypt_message` against the simulated Key Source and then
decrypting the produced envelope against the same Key Source succeeds and
returns exactly the original message, for every entropy/timestamp oracle,
every 16-byte IV, every lossless UTF-8 codec and every starting state of
the Key Source. -/
theorem C1_encrypt_decrypt_roundtrip (P : CryptoPrims)
    (ent : Nat → Nat → Nat) (ts : Nat → List Nat)
    (utf8e : String → List Nat) (utf8d : List Nat → Option String)
    (hcodec : ∀ s, utf8d (utf8e s) = some s)
    (level : Nat) (hlevel : level = 1 ∨ level = 2 ∨ level = 3 ∨ level = 4)
    (iv : List Nat) (hiv : iv.length = 16) (msg : String) (st : MockState) :
    match encryptMessage P (mockClient ent ts) utf8e msg level iv st with
    | .ok (env, st1) =>
        decryptMessage P (mockClient ent ts) utf8d env st1 = .ok msg
    | .error _ => False := by
  have hklen : (mockGen1 ent ts (msgKeySize (utf8e msg) level) st).1.key.length =
      msgKeySize (utf8e msg) level / 8 := mockGen1_key_length ent ts _ st
  have hotp : level = 1 → (utf8e msg).length ≤
      (mockGen1 ent ts (msgKeySize (utf8e msg) level) st).1.key.length := by
    intro h1
    rw [hklen, h1]
    exact msgKeySize_otp_ge _
  obtain ⟨ct, md, hEnc⟩ := engineEncrypt_ok P (utf8e msg)
    (mockGen1 ent ts (msgKeySize (utf8e msg) level) st).1.key iv level hlevel hotp
  rw [encryptMessage, encryptMessageBytes]
  simp only [mockClient]
  rw [mockGetKey_one]
  simp only []
  rw [hEnc]
  simp only []
  rw [decryptMessage, decryptMessageBytes]
  simp only [mockClient]
  rw [mockGetKeyById]
  rw [mockGen1_store_self]
  simp only []
  rw [P.b64d_b64e,
    engineDecrypt_engineEncrypt P (utf8e msg) _ iv level hiv hotp ct md hEnc]
  simp only []
  rw [hcodec msg]

/-- C10: when the metadata passed to `EncryptionEngine.decrypt` has no
security_level entry, decryption does not fail on the missing field: it
proceeds exactly as the KeyDerivedAES (level 2) path — deriving a 256-bit
key by SHA-256 and attempting CBC decryption — instead of rejecting the
envelope as malformed. -/
theorem C10_missing_level_defaults (P : CryptoPrims) (ct key : List Nat)
    (md : MetadataM) (h : md.security_level = none) :
    engineDecrypt P ct key md = decryptQuantumAes P ct key md := by
  rw [engineDecrypt, h]
  simp only [Option.getD_none]
  norm_num

/-- Witness for C10 at a concrete envelope with no security level. -/
theorem C10_witness :
    engineDecrypt toyPrims [0] [1]
        { security_level := none, algorithm := [], iv := some [],
          tag := none, plaintext_length := none } =
      decryptQuantumAes toyPrims [0] [1]
        { security_level := none, algorithm := [], iv := some [],
          tag := none, plaintext_length := none } :=
  C10_missing_level_defaults toyPrims [0] [1] _ rfl

/-- C4: for OneTimePad, encrypting a plaintext with a key shorter than the
plaintext raises `EncryptionError` and produces no ciphertext, and
decryption with a stored key shorter than the `plaintext_length` claimed
in the metadata raises `DecryptionError`. -/
theorem C4_otp_short_key (P : CryptoPrims) (pt key ct iv : List Nat)
    (md : MetadataM) (n : Nat) (henc : key.length < pt.length)
    (hlvl : md.security_level = some 1) (hlen : md.plaintext_length = some n)
    (hdec : key.length < n) :
    engineEncrypt P pt key iv 1 =
      .error (.encryptionError "OTP requires key length >= plaintext length") ∧
    engineDecrypt P ct key md =
      .error (.decryptionError "Key too short for OTP decryption") := by
  constructor
  · rw [engineEncrypt, if_pos rfl, encryptOtp, if_pos henc]
  · rw [engineDecrypt, hlvl]
    simp only [Option.getD_some]
    rw [if_pos trivial, decryptOtp, hlen]
    simp only [Option.getD_some]
    rw [if_pos hdec]

/-- Witness for C4 at a concrete short key. -/
theorem C4_witness :
    engineEncrypt toyPrims [7] [] [] 1 =
      .error (.encryptionError "OTP requires key length >= plaintext length") ∧
    engineDecrypt toyPrims [9] []
        { security_level := some 1, algorithm := [], iv := none, tag := none,
          plaintext_length := some 1 } =
      .error (.decryptionError "Key too short for OTP decryption") :=
  C4_otp_short_key toyPrims [7] [] [9] [] _ 1 (by decide) rfl rfl (by decide)

/-- C7: for the simulated Key Source, closing a present id reports success
and removes exactly that key (a subsequent retrieve-by-id returns None and
every other id is unaffected); closing an absent id reports failure with
the state unchanged, raising no error. -/
theorem C7_close_key_semantics (st : MockState) (kid : List Nat) :
    ((mockCloseKey kid st).1 = true →
      mockGetKeyById kid (mockCloseKey kid st).2 = none) ∧
    (st.keyStore kid = none → mockCloseKey kid st = (false, st)) ∧
    (st.keyStore kid ≠ none →
      (mockCloseKey kid st).1 = true ∧
      (mockCloseKey kid st).2.keyStore kid = none ∧
      ∀ j, j ≠ kid → (mockCloseKey kid st).2.keyStore j = st.keyStore j) := by
  refine ⟨?_, ?_, ?_⟩
  · intro hb
    have h : (st.keyStore kid).isSome := by
      by_contra hc
      rw [mockCloseKey, if_neg hc] at hb
      simp at hb
    rw [mockCloseKey, if_pos h, mockGetKeyById]
    simp
  · intro hn
    rw [mockCloseKey, if_neg (by simp [hn])]
  · intro hn
    have h : (st.keyStore kid).isSome := by
      cases hcase : st.keyStore kid with
      | none => exact absurd hcase hn
      | some kb => simp
    refine ⟨by rw [mockCloseKey, if_pos h], ?_, ?_⟩
    · rw [mockCloseKey, if_pos h]
      simp
    · intro j hj
      rw [mockCloseKey, if_pos h]
      simp only []
      rw [if_neg hj]

/-- Witness for C7 at a concrete one-key store. -/
theorem C7_witness :
    mockGetKeyById [49] (mockCloseKey [49]
        { keyStore := fun j => if j = [49] then some [7] else none,
          keysGenerated := 1 }).2 = none ∧
    mockCloseKey [50]
        { keyStore := fun j => if j = [49] then some [7] else none,
          keysGenerated := 1 } =
      (false, { keyStore := fun j => if j = [49] then some [7] else none,
                keysGenerated := 1 }) :=
  ⟨(C7_close_key_semantics _ [49]).1 rfl,
   (C7_close_key_semantics _ [50]).2.1 rfl⟩

/-- C6 as stated is false: `MockQKDClient.get_key` with requested
`key_size = 12` bits draws `12 // 8 = 1` byte of material but records
`key_size = 12`, so `material.length * 8 = 8 ≠ 12`. -/
theorem C6_counterexample :
    ((mockGetKey (fun _ _ => 0) (fun _ => []) 12 1 mockInit).1.all
      (fun r => r.key.length * 8 == r.key_size)) = false := by
  decide

/-- C6 (amended): the invariant `material.length * 8 == bit_length` holds
for every key generated by the simulated Key Source whenever the requested
bit length is a multiple of 8 (the material is `key_size // 8` bytes, so a
non-multiple of 8 violates it); it holds unconditionally for every key
returned by simulated retrieve-by-id and for every key parsed from a
remote response (both compute `key_size` as `len(material) * 8`). -/
theorem C6_key_size_invariant (ent : Nat → Nat → Nat) (ts : Nat → List Nat)
    (keySize count : Nat) (st : MockState) (hsize : keySize % 8 = 0)
    (P : CryptoPrims) (entries : List (List Nat × List Nat)) (kid : List Nat) :
    (∀ r ∈ (mockGetKey ent ts keySize count st).1,
      r.key.length * 8 = r.key_size) ∧
    (∀ r, mockGetKeyById kid st = some r → r.key.length * 8 = r.key_size) ∧
    (∀ r ∈ remoteParseKeys P entries, r.key.length * 8 = r.key_size) := by
  refine ⟨?_, ?_, ?_⟩
  · intro r hr
    obtain ⟨h1, h2⟩ := mockGetKey_mem_spec ent ts keySize count st r hr
    rw [h1, h2]
    omega
  · intro r hr
    rw [mockGetKeyById] at hr
    cases hcase : st.keyStore kid with
    | none => rw [hcase] at hr; exact absurd hr (by simp)
    | some kb =>
      rw [hcase] at hr
      simp only [Option.some.injEq] at hr
      rw [← hr]
  · intro r hr
    rcases List.mem_map.mp hr with ⟨e, he, hre⟩
    rw [← hre]
    rfl

/-- Witness for C6 (amended) at a concrete 256-bit generation request. -/
theorem C6_witness :
    ({ key_id := mkKeyId 1 [], key := (List.range 32).map (fun _ => 0),
       key_size := 256 } : QKDKeyM).key.length * 8 =
      ({ key_id := mkKeyId 1 [], key := (List.range 32).map (fun _ => 0),
         key_size := 256 } : QKDKeyM).key_size :=
  (C6_key_size_invariant (fun _ _ => 0) (fun _ => []) 256 1 mockInit (by decide)
    toyPrims [] []).1
    { key_id := mkKeyId 1 [], key := (List.range 32).map (fun _ => 0),
      key_size := 256 } (by decide)

/-- C3 as stated is false: when the Key Source returns no keys,
`encrypt_message` raises a plain untyped `Exception` ("Failed to obtain
quantum key"), not a typed KeyRetrievalError; likewise `decrypt_message`
on an absent key id raises a plain `Exception`. -/
theorem C3_counterexample :
    encryptMessageBytes toyPrims emptyClient [104] 2 (List.replicate 16 0) () =
      .error (.exception "Failed to obtain quantum key") ∧
    isKeyRetrievalResult (encryptMessageBytes toyPrims emptyClient [104] 2
      (List.replicate 16 0) ()) = false ∧
    decryptMessageBytes toyPrims emptyClient
        { ciphertext := [], key_id := [77], security_level := 2,
          metadata := { security_level := some 2, algorithm := [],
                        iv := some [], tag := none, plaintext_length := none },
          recipient_id := none } () =
      .error (.exception "Failed to retrieve quantum key") ∧
    isKeyRetrievalResult (decryptMessageBytes toyPrims emptyClient
        { ciphertext := [], key_id := [77], security_level := 2,
          metadata := { security_level := some 2, algorithm := [],
                        iv := some [], tag := none, plaintext_length := none },
          recipient_id := none } ()) = false := by
  refine ⟨rfl, rfl, rfl, rfl⟩

/-- C3 (amended): when the Key Source returns an empty key list for the
generation request, `encrypt_message` fails with the plain untyped
`Exception` "Failed to obtain quantum key"; when the envelope's `key_id`
is absent, `decrypt_message` fails with the plain untyped `Exception`
"Failed to retrieve quantum key".  Neither failure is the typed
KeyRetrievalError. -/
theorem C3_untyped_exception (P : CryptoPrims) {σ : Type} (C : KSClient σ)
    (pt iv : List Nat) (level : Nat) (st st2 : σ) (env : EnvelopeM)
    (hempty : C.getKey (msgKeySize pt level) 1 st = .ok ([], st2))
    (hmiss : C.getKeyById env.key_id st = .ok none) :
    encryptMessageBytes P C pt level iv st =
      .error (.exception "Failed to obtain quantum key") ∧
    isKeyRetrievalResult (encryptMessageBytes P C pt level iv st) = false ∧
    decryptMessageBytes P C env st =
      .error (.exception "Failed to retrieve quantum key") ∧
    isKeyRetrievalResult (decryptMessageBytes P C env st) = false := by
  have h1 : encryptMessageBytes P C pt level iv st =
      .error (.exception "Failed to obtain quantum key") := by
    rw [encryptMessageBytes, hempty]
  have h2 : decryptMessageBytes P C env st =
      .error (.exception "Failed to retrieve quantum key") := by
    rw [decryptMessageBytes, hmiss]
  exact ⟨h1, by rw [h1]; rfl, h2, by rw [h2]; rfl⟩

/-- Witness for C3 (amended) with a key source that returns nothing. -/
theorem C3_witness :
    encryptMessageBytes toyPrims emptyClient [104] 3 [] () =
      .error (.exception "Failed to obtain quantum key") ∧
    isKeyRetrievalResult (encryptMessageBytes toyPrims emptyClient [104] 3 [] ())
      = false ∧
    decryptMessageBytes toyPrims emptyClient
        { ciphertext := [], key_id := [78], security_level := 3,
          metadata := { security_level := some 3, algorithm := [],
                        iv := some [], tag := some [], plaintext_length := none },
          recipient_id := none } () =
      .error (.exception "Failed to retrieve quantum key") ∧
    isKeyRetrievalResult (decryptMessageBytes toyPrims emptyClient
        { ciphertext := [], key_id := [78], security_level := 3,
          metadata := { security_level := some 3, algorithm := [],
                        iv := some [], tag := some [], plaintext_length := none },
          recipient_id := none } ()) = false :=
  C3_untyped_exception toyPrims emptyClient [104] [] 3 () () _ rfl rfl

/-- C5 as stated is false: when the PKCS#7 padding of the decrypted block
fails to validate, the engine raises the padding library's `ValueError`
("Padding is incorrect."), which propagates as-is — not the typed
`DecryptionError`.  Shown at a concrete level-2 envelope whose decrypted
block ends in the invalid padding byte 0. -/
theorem C5_counterexample :
    engineDecrypt toyPrims (List.replicate 16 0) []
        { security_level := some 2, algorithm := [],
          iv := some (List.replicate 16 0), tag := none,
          plaintext_length := none } =
      .error (.valueError "Padding is incorrect.") ∧
    isDecryptionErrorResult (engineDecrypt toyPrims (List.replicate 16 0) []
        { security_level := some 2, algorithm := [],
          iv := some (List.replicate 16 0), tag := none,
          plaintext_length := none }) = false := by
  refine ⟨by rfl, by rfl⟩

/-- C5 (amended): for KeyDerivedAES (level 2) and Classical (level 4),
whenever the PKCS#7 validation of the CBC-decrypted block fails, the
engine's decrypt surfaces exactly the padding library's error — always a
`ValueError`, never the typed `DecryptionError`. -/
theorem C5_padding_failure_valueError (P : CryptoPrims) (ct key ivb : List Nat)
    (md : MetadataM) (er : PyErr)
    (hlvl : md.security_level = some 2 ∨ md.security_level = some 4)
    (hiv : md.iv = some ivb) (hal : ct.length % 16 = 0)
    (hpad : pkcs7unpad (cbcDecrypt P
      (if md.security_level = some 4 then classicalKey P key else qaesKey P key)
      (P.b64d ivb) ct) 16 = .error er) :
    engineDecrypt P ct key md = .error er ∧
    (∀ m, er ≠ .decryptionError m) ∧
    isDecryptionErrorResult (engineDecrypt P ct key md) = false := by
  have hval : ∃ m, er = .valueError m := pkcs7unpad_error_valueError _ _ _ hpad
  have hmain : engineDecrypt P ct key md = .error er := by
    rcases hlvl with h | h
    · rw [if_neg (by rw [h]; simp)] at hpad
      rw [engineDecrypt, h]
      simp only [Option.getD_some]
      rw [if_pos trivial, decryptQuantumAes, hiv]
      simp only []
      rw [if_pos hal]
      exact hpad
    · rw [if_pos h] at hpad
      rw [engineDecrypt, h]
      simp only [Option.getD_some]
      rw [if_pos trivial, decryptClassical, hiv]
      simp only []
      rw [if_pos hal]
      exact hpad
  refine ⟨hmain, ?_, ?_⟩
  · intro m hm
    obtain ⟨m2, hm2⟩ := hval
    rw [hm2] at hm
    exact absurd hm (by simp)
  · rw [hmain]
    obtain ⟨m2, hm2⟩ := hval
    rw [hm2]
    rfl

/-- Witness for C5 (amended) at a concrete level-4 envelope with broken
padding. -/
theorem C5_witness :
    engineDecrypt toyPrims (List.replicate 16 0) (List.replicate 32 1)
        { security_level := some 4, algorithm := [],
          iv := some (List.replicate 16 0), tag := none,
          plaintext_length := none } =
      .error (.valueError "Padding is incorrect.") ∧
    isDecryptionErrorResult (engineDecrypt toyPrims (List.replicate 16 0)
        (List.replicate 32 1)
        { security_level := some 4, algorithm := [],
          iv := some (List.replicate 16 0), tag := none,
          plaintext_length := none }) = false :=
  ⟨(C5_padding_failure_valueError toyPrims (List.replicate 16 0)
      (List.replicate 32 1) (List.replicate 16 0)
      { security_level := some 4, algorithm := [],
        iv := some (List.replicate 16 0), tag := none, plaintext_length := none }
      (.valueError "Padding is incorrect.") (Or.inr rfl) rfl (by decide) rfl).1,
   (C5_padding_failure_valueError toyPrims (List.replicate 16 0)
      (List.replicate 32 1) (List.replicate 16 0)
      { security_level := some 4, algorithm := [],
        iv := some (List.replicate 16 0), tag := none, plaintext_length := none }
      (.valueError "Padding is incorrect.") (Or.inr rfl) rfl (by decide) rfl).2.2⟩

/-- C2 as stated is false in one respect: a tampered tag does abort
decryption with no plaintext, but the error is the AEAD library's
`InvalidTag` (which propagates uncaught), not the engine's typed
`DecryptionError`.  Shown at a concrete level-3 envelope with the engine's
16-byte IV and the library's 16-byte tag whose first bit is flipped. -/
theorem C2_counterexample :
    engineDecrypt toyPrims [1, 2] []
        { security_level := some 3, algorithm := strCodes "PQC-AES-GCM",
          iv := some (List.replicate 16 0),
          tag := some [0, 2, 0, 0, 0, 0, 0, 0, 0, 0, 0, 0, 0, 0, 0, 0],
          plaintext_length := none } =
      .error .invalidTag ∧
    isDecryptionErrorResult (engineDecrypt toyPrims [1, 2] []
        { security_level := some 3, algorithm := strCodes "PQC-AES-GCM",
          iv := some (List.replicate 16 0),
          tag := some [0, 2, 0, 0, 0, 0, 0, 0, 0, 0, 0, 0, 0, 0, 0, 0],
          plaintext_length := none }) = false := by
  refine ⟨by rfl, by rfl⟩

/-- C2 (amended): for PostQuantumPlaceholder (level 3) with the engine's
16-byte IV, flipping any bit of the stored 16-byte tag before decryption
makes decrypt fail hard with the AEAD library's `InvalidTag` error and no
plaintext (the flipped tag still passes the GCM constructor's
`min_tag_length` validation because flipping preserves its 16-byte
length); flipping any bit of the ciphertext does the same provided the GCM
tag is sensitive to that single-bit change (the MAC property of the
external AEAD).  In neither case is a differing plaintext returned; the
failure is `InvalidTag`, not the engine's `DecryptionError`. -/
theorem C2_pqc_tamper_invalidTag (P : CryptoPrims) (pt key iv : List Nat)
    (i : Nat) (hiv : iv.length = 16)
    (hti : i < (P.gcmTag (qaesKey P key) iv (encryptPqc P pt key iv).1).length * 8)
    (hsens : P.gcmTag (qaesKey P key) iv (flipBit (encryptPqc P pt key iv).1 i) ≠
      P.gcmTag (qaesKey P key) iv (encryptPqc P pt key iv).1) :
    engineDecrypt P (encryptPqc P pt key iv).1 key
        { (encryptPqc P pt key iv).2 with
          tag := some (P.b64e (flipBit
            (P.gcmTag (qaesKey P key) iv (encryptPqc P pt key iv).1) i)) } =
      .error .invalidTag ∧
    engineDecrypt P (flipBit (encryptPqc P pt key iv).1 i) key
        (encryptPqc P pt key iv).2 = .error .invalidTag := by
  constructor
  · have hne := flipBit_ne _ i hti
    simp only [encryptPqc] at hne
    rw [engineDecrypt]
    simp only [encryptPqc, Option.getD_some]
    norm_num
    rw [decryptPqc]
    simp only []
    rw [P.b64d_b64e, P.b64d_b64e]
    rw [if_neg (by omega),
      if_neg (by rw [flipBit, List.length_set, P.gcmTag_length]; omega),
      if_neg (fun hc => hne hc.symm)]
  · have hs := hsens
    simp only [encryptPqc] at hs
    rw [engineDecrypt]
    simp only [encryptPqc, Option.getD_some]
    norm_num
    rw [decryptPqc]
    simp only []
    rw [P.b64d_b64e, P.b64d_b64e]
    rw [if_neg (by omega), if_neg (by rw [P.gcmTag_length]; omega),
      if_neg hs]

/-- Witness for C2 (amended) at a concrete two-byte plaintext under a
16-byte IV. -/
theorem C2_witness :
    engineDecrypt toyPrims (encryptPqc toyPrims [1, 2] [] (List.replicate 16 0)).1 []
        { (encryptPqc toyPrims [1, 2] [] (List.replicate 16 0)).2 with
          tag := some (toyPrims.b64e (flipBit
            (toyPrims.gcmTag (qaesKey toyPrims []) (List.replicate 16 0)
              (encryptPqc toyPrims [1, 2] [] (List.replicate 16 0)).1) 0)) } =
      .error .invalidTag ∧
    engineDecrypt toyPrims
        (flipBit (encryptPqc toyPrims [1, 2] [] (List.replicate 16 0)).1 0) []
        (encryptPqc toyPrims [1, 2] [] (List.replicate 16 0)).2 =
      .error .invalidTag :=
  C2_pqc_tamper_invalidTag toyPrims [1, 2] [] (List.replicate 16 0) 0
    (by decide) (by decide) (by decide)

/-- C9: `AttachmentHandler.encrypt_file` rejects any input whose size
exceeds the configured ceiling with the size-limit `ValueError` before
encrypting, and `encrypt_multiple_files` on a list with an oversized file
(all earlier files within the ceiling) aborts at that file — the remaining
files are never encrypted — and surfaces the size-limit error to the
caller instead of returning a partial list. -/
theorem C9_attachment_size_ceiling (P : CryptoPrims) {σ : Type}
    (C : KSClient σ) (maxSize : Nat) (f : FileM) (level : Nat) (iv : List Nat)
    (st : σ) (ent : Nat → Nat → Nat) (ts : Nat → List Nat)
    (xs ys : List FileM) (g : FileM) (ivs : Nat → List Nat) (mst : MockState)
    (hf : f.content.length > maxSize)
    (hxs : ∀ x ∈ xs, x.content.length ≤ maxSize)
    (hg : g.content.length > maxSize) :
    encryptFileM P C maxSize f level iv st =
      .error (.valueError "File too large") ∧
    encryptMultipleFiles P (mockClient ent ts) maxSize (xs ++ g :: ys) 2 ivs
      mst = .error (.valueError "File too large") := by
  constructor
  · rw [encryptFileM, if_pos hf]
  · rw [encryptMultipleFiles]
    exact encMultiGo_mock_aborts P ent ts maxSize ivs xs g ys 0 mst hxs hg

/-- Witness for C9: a 1-byte file against a ceiling of 0. -/
theorem C9_witness :
    encryptFileM toyPrims emptyClient 0 { name := [], content := [1] } 2 [] ()
      = .error (.valueError "File too large") ∧
    encryptMultipleFiles toyPrims (mockClient (fun _ _ => 0) (fun _ => [])) 0
        [{ name := [], content := [1] }] 2 (fun _ => []) mockInit =
      .error (.valueError "File too large") :=
  C9_attachment_size_ceiling toyPrims emptyClient 0
    { name := [], content := [1] } 2 [] () (fun _ _ => 0) (fun _ => []) [] []
    { name := [], content := [1] } (fun _ => []) mockInit (by decide)
    (by simp) (by decide)

/-- C8: for the simulated Key Source, the id of a freshly generated key
differs from the id of every previously issued key across any history of
generations, closes and restarts that reload the persisted store, and the
counter embedded in the id space is strictly increasing. -/
theorem C8_fresh_id_unique (ent : Nat → Nat → Nat) (evs : List KMEv)
    (keySize : Nat) (ts : List Nat) :
    (mockGen1 ent (fun _ => ts) keySize (simRun ent evs).st).1.key_id ∉
      issuedIds (simRun ent evs) ∧
    ∀ p ∈ (simRun ent evs).issued,
      p.1 < (mockGen1 ent (fun _ => ts) keySize
        (simRun ent evs).st).2.keysGenerated := by
  obtain ⟨h1, h2⟩ := simRun_inv ent evs
  have hcnt : ∀ p ∈ (simRun ent evs).issued,
      p.1 ≤ (simRun ent evs).st.keysGenerated :=
    fun p hp => le_trans (h2 p hp) h1
  have hkid : (mockGen1 ent (fun _ => ts) keySize (simRun ent evs).st).1.key_id
      = mkKeyId ((simRun ent evs).st.keysGenerated + 1) ts := rfl
  have hgen : (mockGen1 ent (fun _ => ts) keySize
      (simRun ent evs).st).2.keysGenerated =
      (simRun ent evs).st.keysGenerated + 1 := rfl
  constructor
  · rw [hkid]
    intro hmem
    rw [issuedIds] at hmem
    rcases List.mem_map.mp hmem with ⟨p, hp, hpe⟩
    have hinj := mkKeyId_counter_inj _ _ _ _ hpe
    have hle := hcnt p hp
    omega
  · intro p hp
    rw [hgen]
    have hle := hcnt p hp
    omega

/-- Witness for C8: one generation followed by a restart; the next id is
fresh. -/
theorem C8_witness :
    (mockGen1 (fun _ _ => 0) (fun _ => [53]) 256
        (simRun (fun _ _ => 0) [KMEv.gen 256 [53], KMEv.restart]).st).1.key_id ∉
      issuedIds (simRun (fun _ _ => 0) [KMEv.gen 256 [53], KMEv.restart]) :=
  (C8_fresh_id_unique (fun _ _ => 0) [KMEv.gen 256 [53], KMEv.restart]
    256 [53]).1

/-- Witness for C1: level 2 on the message "hi" with transparent toy
primitives, starting from the empty simulated store. -/
theorem C1_witness :
    (match encryptMessage toyPrims (mockClient (fun _ _ => 0) (fun _ => []))
        toyUtf8e "hi" 2 (List.replicate 16 0) mockInit with
    | .ok (env, st1) =>
        decryptMessage toyPrims (mockClient (fun _ _ => 0) (fun _ => []))
          toyUtf8d env st1 = .ok "hi"
    | .error _ => False) :=
  C1_encrypt_decrypt_roundtrip toyPrims (fun _ _ => 0) (fun _ => [])
    toyUtf8e toyUtf8d toyCodec_inverse 2 (Or.inr (Or.inl rfl))
    (List.replicate 16 0) (List.length_replicate 16 0) "hi" mockInit
